import Mathlib

/-
Verification development for the `pathvis` path-traceroute daemon.

Shallow embedding of the Python sources:
  - `path_traceroute/tracer/tracer.py`       (Tracer._loop, TracerouteTracer.cycle_protocol)
  - `path_traceroute/tracer/traceroute.py`   (Traceroute.trace exit-code handling)
  - `path_traceroute/reverse_query_lookup.py` (reader / lookup: bounded ordered store)
  - `path_traceroute/path_traceroute.py`     (main_loop add/update phase)
  - `path_traceroute/util/rpki.py`           (ROAChecker.roa_valid)
  - `path_traceroute/node_info.py`           (hop_info cache expiry)
  - `path_traceroute/websocket_server.py`    (per-connection publication map)

Machine integers do not occur on the modelled paths; Python lists become
Lean lists, dicts become association lists, sets of ports are kept
abstract (a type with decidable equality), and Python `None` becomes
`Option.none`.  Slots of the `Trace` namedtuple that hold values of more
than one Python type are modelled by small sum types.
-/

/- ### Tracer loop (tracer.py, `Tracer._loop`) -/

/-- One hop of a trace: an IP string, or `none` when the probe got no
responder (Python `None`). -/
abbrev Hop := Option String

/-- Python truthiness of a hop value: `None` and the empty string are
falsy, any other string is truthy (used by `any(tr)`). -/
def hopTruthy : Hop → Bool
  | none => false
  | some s => s ≠ ""

/-- Value stored in the `dports` slot of the `Trace` namedtuple.  During
the periodic loop the slot holds `self.dports`, which is either Python
`None` or a port collection (kept abstract as `δ`); the final sentinel
trace stores a literal empty list, a distinct Python value. -/
inductive DportsField (δ : Type) : Type
  | pyNone : DportsField δ
  | ports : δ → DportsField δ
  | emptyList : DportsField δ
deriving DecidableEq

/-- Value stored in the `traceback` slot: the loop stores the `None`
returned by `Tracer.traceback`, the sentinel stores an empty list. -/
inductive TbField : Type
  | pyNone : TbField
  | emptyList : TbField
deriving DecidableEq

/-- Value stored in the `cnames` slot: the loop trace stores the literal
integer `2` (tracer.py line 135), the sentinel stores `self.cnames`. -/
inductive CnameField : Type
  | num : Int → CnameField
  | chain : List String → CnameField
deriving DecidableEq

/-- Conversion of the loop's `self.dports` value (`None` or a port
collection) into the namedtuple slot. -/
def dportsField {δ : Type} : Option δ → DportsField δ
  | none => DportsField.pyNone
  | some d => DportsField.ports d

/-- The `Trace` namedtuple of tracer.py:
`Trace = namedtuple('Trace', ['start', 'destination', 'change', 'duration', 'trace', 'traceback', 'dports', 'cnames'])`. -/
structure Trace (δ : Type) : Type where
  start : Nat
  destination : String
  change : Bool
  duration : Nat
  trace : List Hop
  traceback : TbField
  dports : DportsField δ
  cnames : CnameField
deriving DecidableEq

/-- Data consumed by one iteration of `Tracer._loop`: the raw trace
returned by `one_trace`, the value of `self.dports` during the
iteration, and the two clock readings. -/
structure LoopInput (δ : Type) : Type where
  tr : List Hop
  dports : Option δ
  start : Nat
  endT : Nat
deriving DecidableEq

/-- Mutable locals of `Tracer._loop` that survive between iterations:
`last` (hops of the last change) and `dports_last`. -/
structure LoopState (δ : Type) : Type where
  last : Option (List Hop)
  dportsLast : Option δ
deriving DecidableEq

/-- Filter rules of `_loop` (lines 97-104): skip when every hop is falsy,
when the length equals `max_ttl - 1`, or when the last hop is `None`. -/
def traceFiltered (maxTtl : Nat) (tr : List Hop) : Bool :=
  !(tr.any hopTruthy) || tr.length == maxTtl - 1 || tr.getLast? == some none

/-- Pointwise merge of _loop lines 112-118: keep the old hop wherever the
new one is `None`. -/
def merged_trace (last tr : List Hop) : List Hop :=
  List.zipWith (fun oldhop newhop =>
    match newhop with
    | none => oldhop
    | some x => some x) last tr

/-- Merge guard of _loop line 111: merge only when a previous trace
exists and has the same length. -/
def mergeStep {δ : Type} (s : LoopState δ) (tr : List Hop) : List Hop :=
  match s.last with
  | some l => if tr.length = l.length then merged_trace l tr else tr
  | none => tr

/-- Change detection of _loop lines 120-123: `change = True` when `last`
or `dports_last` is `None`, else `not (tr == last and dports_last == self.dports)`. -/
def changeStep {δ : Type} [DecidableEq δ] (s : LoopState δ) (tr : List Hop)
    (dports : Option δ) : Bool :=
  match s.last, s.dportsLast with
  | some l, some dl => !decide (tr = l ∧ some dl = dports)
  | _, _ => true

/-- One iteration of `Tracer._loop` (lines 92-136): filter, merge, change
detection, state update, and the optional emission of a `Trace` record
(whose `cnames` slot is the literal `2` of line 135). -/
def loopStep {δ : Type} [DecidableEq δ] (onlyChanges : Bool) (maxTtl : Nat)
    (dest : String) (s : LoopState δ) (inp : LoopInput δ) :
    LoopState δ × Option (Trace δ) :=
  if traceFiltered maxTtl inp.tr then (s, none)
  else
    let tr := mergeStep s inp.tr
    let change := changeStep s tr inp.dports
    let s' : LoopState δ := ⟨if change then some tr else s.last, inp.dports⟩
    let out : Option (Trace δ) :=
      if !onlyChanges || change then
        some ⟨inp.start, dest, change, inp.endT - inp.start, tr, TbField.pyNone,
          dportsField inp.dports, CnameField.num 2⟩
      else none
    (s', out)

/-- History produced by running the loop body over a list of iteration
inputs from a given state. -/
def runLoopAux {δ : Type} [DecidableEq δ] (onlyChanges : Bool) (maxTtl : Nat)
    (dest : String) (s : LoopState δ) : List (LoopInput δ) → List (Trace δ)
  | [] => []
  | inp :: rest =>
      let r := loopStep onlyChanges maxTtl dest s inp
      r.2.toList ++ runLoopAux onlyChanges maxTtl dest r.1 rest

/-- The traces appended to `self.history` by the periodic loop (the
sentinel trace appended after the loop is separate, see
`sentinelTrace`).  `_loop` runs with `max_ttl = 64`. -/
def loopHistory {δ : Type} [DecidableEq δ] (onlyChanges : Bool) (maxTtl : Nat)
    (dest : String) (inps : List (LoopInput δ)) : List (Trace δ) :=
  runLoopAux onlyChanges maxTtl dest ⟨none, none⟩ inps

/-- The sentinel trace of _loop line 142:
`Trace(get_utc_time(), self.destination, True, 0, [], [], [], self.cnames)`. -/
def sentinelTrace (δ : Type) (now : Nat) (dest : String) (cnames : List String) :
    Trace δ :=
  ⟨now, dest, true, 0, [], TbField.emptyList, DportsField.emptyList,
    CnameField.chain cnames⟩

/-- Relation between an accepted trace record and its predecessor that
the loop's change flag realises: the first record has `change = true`;
a later record's flag is true iff its hops or its dports differ from
the predecessor's, or the predecessor's dports slot is the unset
Python `None`. -/
def linkOk {δ : Type} : Option (Trace δ) → Trace δ → Prop
  | none, t => t.change = true
  | some p, t => t.change = true ↔
      (t.trace ≠ p.trace ∨ t.dports ≠ p.dports ∨ p.dports = DportsField.pyNone)

/-- Chain of `linkOk` links along a history, from a given predecessor. -/
def chainFrom {δ : Type} : Option (Trace δ) → List (Trace δ) → Prop
  | _, [] => True
  | p, t :: ts => linkOk p t ∧ chainFrom (some t) ts

/-- Agreement between the loop locals and the last accepted trace
(`none` when nothing has been accepted yet). -/
def stateMatches {δ : Type} : LoopState δ → Option (Trace δ) → Prop
  | s, none => s.last = none ∧ s.dportsLast = none
  | s, some t => s.last = some t.trace ∧ t.dports = dportsField s.dportsLast

/- ### Traceroute exit-code handling (traceroute.py, `Traceroute.trace`) -/

/-- A single-quote character, used when rebuilding the Python f-string. -/
def squote : String := String.singleton (Char.ofNat 39)

/-- The message of the `TracerouteError` raised in `Traceroute.trace`
lines 140-141. -/
def tracerouteErrorMsg (cmd : List String) (rc : Int) (stderr : String) : String :=
  "command " ++ squote ++ String.intercalate " " cmd ++ squote ++ " returned "
    ++ toString rc ++ ", stderr: " ++ stderr

/-- Tail of `Traceroute.trace` (lines 136-144): after parsing, a
returncode outside `[0, -9, -15]` raises `TracerouteError`, otherwise
the parsed result is returned. -/
def trace_finish (cmd : List String) (returncode : Int) (stderr : String)
    (parsed : List (Option String)) : Except String (List (Option String)) :=
  if returncode ∈ ([0, -9, -15] : List Int) then Except.ok parsed
  else Except.error (tracerouteErrorMsg cmd returncode stderr)

/- ### Reverse-name store (reverse_query_lookup.py, `reader` / `lookup`) -/

/-- Body of the `reader` loop (lines 94-99) for one parsed `(ip, names)`
pair: delete an existing entry for `ip` (moving it to the end on
re-insert), `popitem()` when at capacity — which for an (Ordered)dict
removes the LAST inserted pair — and append the new entry.  Keys and
values are kept abstract; the ordered dict is the list of its pairs in
insertion order. -/
def record {κ ν : Type} [DecidableEq κ] (store : List (κ × ν)) (maxItems : Nat)
    (ip : κ) (names : ν) : List (κ × ν) :=
  let store := if store.any (fun e => e.1 = ip)
    then store.eraseP (fun e => e.1 == ip) else store
  let store := if maxItems ≤ store.length then store.dropLast else store
  store ++ [(ip, names)]

/-- Capacity bound of reverse_query_lookup.py (`MAX_ITEMS = 5000`). -/
def MAX_ITEMS : Nat := 5000

/- ### Supervisor tick, add/update phase (path_traceroute.py, `main_loop` lines 59-74) -/

/-- In-memory view of a tracer object as touched by the supervisor's
add/update phase. -/
structure TracerRec (δ : Type) : Type where
  destination : String
  dports : Option δ
  cnames : List String
deriving DecidableEq

/-- Replacement of the last element of a list, modelling a mutation of
the object most recently appended to `active_tracers` (the supervisor's
`tracer` variable aliases exactly that object). -/
def updateLast {α : Type} (f : α → α) : List α → List α
  | [] => []
  | [a] => [f a]
  | a :: b :: rest => a :: updateLast f (b :: rest)

/-- The `for addr in _active_remote_hosts` loop of `main_loop` (lines
59-74).  `active_destinations` is computed before the loop; the local
variable `tracer` starts as `None` and is rebound only when a new tracer
is created, so the `tracer.dports = _active_remote_hosts[addr]` branch
for an already-running destination mutates the tracer created last in
this tick (and is skipped entirely while `tracer` is still `None`).
The snapshot is a `Mapping`, so the `isinstance` guard is true. -/
def mainLoopAddPhase {δ : Type} [DecidableEq δ] (localIp : String)
    (look : String → List String) (snap : List (String × δ))
    (tracers : List (TracerRec δ)) : List (TracerRec δ) :=
  let activeDest := tracers.map (fun t => t.destination)
  (snap.foldl (fun (st : List (TracerRec δ) × Bool) e =>
    if e.1 = localIp then st
    else if e.1 ∈ activeDest then
      if st.2 then (updateLast (fun t => { t with dports := some e.2 }) st.1, st.2)
      else st
    else (st.1 ++ [⟨e.1, some e.2, look e.1⟩], true)) (tracers, false)).1

/- ### ROA validation (util/rpki.py, `ROAChecker.roa_valid`) -/

/-- A Python value that is either a string or an integer, as admitted by
the `asn: Union[int, str]` parameter of `roa_valid` and by the JSON
fields of the VRPs data. -/
inductive PyStrInt : Type
  | str : String → PyStrInt
  | int : Int → PyStrInt
deriving DecidableEq

/-- Python truthiness: the empty string and the integer 0 are falsy. -/
def pyTruthy : PyStrInt → Bool
  | PyStrInt.str s => s ≠ ""
  | PyStrInt.int n => n ≠ 0

/-- Python `str()` of such a value. -/
def pyStr : PyStrInt → String
  | PyStrInt.str s => s
  | PyStrInt.int n => toString n

/-- Python `==` between such a value and a string: an integer never
equals a string. -/
def pyEqStr : PyStrInt → String → Bool
  | PyStrInt.str s, t => s == t
  | PyStrInt.int _, _ => false

/-- `ROAChecker.roa_valid` (rpki.py lines 48-54): guard falsy or `'*'`
arguments, build `valid_prefixes` as string-converted pairs from
`self.data['roas']`, and test membership of the unconverted argument
pair. -/
def roa_valid (roas : List (PyStrInt × PyStrInt)) (asn pfx : PyStrInt) : Bool :=
  if !pyTruthy asn || asn == PyStrInt.str "*" then false
  else if !pyTruthy pfx || pfx == PyStrInt.str "*" then false
  else
    let valid_prefixes := roas.map (fun roa => (pyStr roa.1, pyStr roa.2))
    valid_prefixes.any (fun vp => pyEqStr asn vp.1 && pyEqStr pfx vp.2)

/- ### Hop cache expiry (node_info.py, `hop_info` lines 226-241) -/

/-- Shared cache state of node_info.py: `hop_cache` (hop IP → enrichment
record, records kept abstract) and `hop_cache_expire` (expiry time →
list of hop IPs). -/
structure HopCacheState (ρ : Type) : Type where
  cache : List (String × ρ)
  expire : List (Nat × List String)

/-- Expire phase of `hop_info` (lines 227-234): collect the hops of every
bucket whose expiry time is strictly less than `now`, delete them from
`hop_cache`, and delete those buckets. -/
def hopInfoExpire {ρ : Type} (s : HopCacheState ρ) (now : Nat) : HopCacheState ρ :=
  let expiredHops := (s.expire.filter (fun b => b.1 < now)).flatMap (fun b => b.2)
  ⟨s.cache.filter (fun e => !expiredHops.contains e.1),
    s.expire.filter (fun b => !(b.1 < now))⟩

/-- Cache read of `hop_info` (lines 237-241) together with the expire
phase that precedes it: the post-sweep state and the cached record for
`ip`, if any (enrichment records are non-empty dicts, so `if result:`
is a `Some`-test). -/
def hopInfoLookup {ρ : Type} (s : HopCacheState ρ) (now : Nat) (ip : String) :
    Option ρ × HopCacheState ρ :=
  let s' := hopInfoExpire s now
  ((s'.cache.find? (fun e => e.1 == ip)).map (fun e => e.2), s')

/- ### Protocol cycling (tracer.py, `TracerouteTracer.cycle_protocol`) -/

/-- Default protocol preference of `cycle_protocol`. -/
def preferredProtocols : List String := ["icmp", "udp", "tcp"]

/-- Initial fill of the protocol queue (tracer.py line 183):
`[proto for proto in pref if proto in capabilities] + list(capabilities)`.
The capability set is represented by its enumeration order. -/
def cap_by_pref (pref capabilities : List String) : List String :=
  pref.filter (fun proto => capabilities.contains proto) ++ capabilities

/-- `cycle_protocol` (tracer.py lines 178-187) acting on the
`cycle_protocols` deque (`none` before the first call): build the queue
on first use, then `popleft` and re-`append` the head.  `popleft` on an
empty deque raises, hence the `Option` result. -/
def cycle_protocol (state : Option (List String)) (pref capabilities : List String) :
    Option (String × List String) :=
  let q := match state with
    | some q => q
    | none => cap_by_pref pref capabilities
  match q with
  | [] => none
  | proto :: rest => some (proto, rest ++ [proto])

/- ### Per-subscriber publication map (websocket_server.py) -/

/-- The `processed_traces_by_destination` dict of one websocket handler:
destination IP → list of `(start, destination)` dedupe keys.  The
`start` timestamps are kept as naturals. -/
abbrev PubMap := List (String × List (Nat × String))

/-- The union of all stored dedupe keys, as computed by
`all_processed_traces` (lines 46-49). -/
def allProcessedTraces (m : PubMap) : List (Nat × String) :=
  m.flatMap (fun e => e.2)

/-- The list stored under one destination (dict access; absent key reads
as the empty list). -/
def tracesOfDest (m : PubMap) (d : String) : List (Nat × String) :=
  ((m.find? (fun e => e.1 == d)).map (fun e => e.2)).getD []

/-- `processed_traces_by_destination.setdefault(host, []).append(trace_key)`
(line 86) where `host` is the trace's destination and `trace_key` is
`(trace.start, trace.destination)`. -/
def pubAddKey (m : PubMap) (s : Nat) (d : String) : PubMap :=
  if m.any (fun e => e.1 = d) then
    m.map (fun e => if e.1 = d then (e.1, e.2 ++ [(s, d)]) else e)
  else m ++ [(d, [(s, d)])]

/-- `del processed_traces_by_destination[tracer.destination]` (line 93). -/
def pubDelDest (m : PubMap) (d : String) : PubMap :=
  m.filter (fun e => !(e.1 == d))

/-- The two operations `send_traces` performs on the publication map:
publishing a trace (lines 79-87, guarded by the dedupe test against
`all_processed_traces()`) and removing a destination (lines 89-93,
guarded by a key test). -/
inductive PubOp : Type
  | pub : Nat → String → PubOp
  | remove : String → PubOp

/-- Application of one `send_traces` operation to the publication map. -/
def pubApply (m : PubMap) : PubOp → PubMap
  | PubOp.pub s d =>
      if (s, d) ∈ allProcessedTraces m then m else pubAddKey m s d
  | PubOp.remove d =>
      if m.any (fun e => e.1 = d) then pubDelDest m d else m

/-- The publication map reached from the empty map of a fresh connection
by a sequence of `send_traces` operations. -/
def pubRun (ops : List PubOp) : PubMap :=
  ops.foldl pubApply []

/- ### Fixtures for counterexamples and witnesses -/

/-- Two loop iterations with identical hops and an unset (`None`)
`self.dports`, as happens for a `Tracer` whose `dports` was never
assigned (e.g. the tracer started by tracer.py's own `main`). -/
def c1Inputs : List (LoopInput Nat) :=
  [⟨[some "203.0.113.1"], none, 0, 1⟩, ⟨[some "203.0.113.1"], none, 5, 6⟩]

/-- A reverse-name store filled to capacity, oldest entry first. -/
def lruStoreFull : List (Nat × Nat) :=
  (0, 0) :: ((List.range 4998).map (fun i => (i + 1, 0)) ++ [(4999, 0)])

/- ### Theorems -/

/-- C2: for a previous accepted trace `P` and a new trace `N` of the same
length, the merged trace agrees with `N` wherever `N` is not missing and
with `P` wherever `N` is missing. -/
theorem merge_pointwise (P N : List Hop) (h : P.length = N.length) (i : Nat)
    (hi : i < N.length) :
    (merged_trace P N)[i]? = if N[i]? = some none then P[i]? else N[i]? := by
  induction N generalizing P i with
  | nil => simp at hi
  | cons n N ih =>
      cases P with
      | nil => simp at h
      | cons p P =>
          cases i with
          | zero => cases n <;> simp [merged_trace]
          | succ i =>
              have h' : P.length = N.length := by simpa using h
              have hi' : i < N.length := by simpa using hi
              simpa [merged_trace] using ih P h' i hi'

theorem merge_pointwise_witness :
    ([some "a", some "b"] : List Hop).length = ([some "a", none] : List Hop).length ∧
      (1 : Nat) < ([some "a", none] : List Hop).length ∧
      (merged_trace [some "a", some "b"] [some "a", none])[1]? =
        (if ([some "a", none] : List Hop)[1]? = some none
          then ([some "a", some "b"] : List Hop)[1]?
          else ([some "a", none] : List Hop)[1]?) :=
  ⟨by decide, by decide, merge_pointwise [some "a", some "b"] [some "a", none] (by decide) 1 (by decide)⟩

/-- C9: `Traceroute.trace` treats exit codes 0, -9 and -15 as successful
and returns the parsed hops; any other exit code raises a
`TracerouteError` whose message carries the command line and the child's
stderr. -/
theorem traceroute_exit_codes (cmd : List String) (rc : Int) (stderr : String)
    (parsed : List (Option String)) :
    ((rc = 0 ∨ rc = -9 ∨ rc = -15) →
      trace_finish cmd rc stderr parsed = Except.ok parsed) ∧
    (rc ≠ 0 → rc ≠ -9 → rc ≠ -15 →
      trace_finish cmd rc stderr parsed =
        Except.error (tracerouteErrorMsg cmd rc stderr) ∧
      (∃ a b, tracerouteErrorMsg cmd rc stderr =
        a ++ (String.intercalate " " cmd ++ b)) ∧
      (∃ c, tracerouteErrorMsg cmd rc stderr = c ++ stderr)) := by
  constructor
  · intro h
    rcases h with h | h | h <;> simp [trace_finish, h]
  · intro h0 h9 h15
    refine ⟨by simp [trace_finish, h0, h9, h15],
      ⟨"command " ++ squote,
        squote ++ " returned " ++ toString rc ++ ", stderr: " ++ stderr, ?_⟩,
      ⟨"command " ++ squote ++ String.intercalate " " cmd ++ squote
        ++ " returned " ++ toString rc ++ ", stderr: ", ?_⟩⟩
    · simp [tracerouteErrorMsg, String.append_assoc]
    · simp [tracerouteErrorMsg, String.append_assoc]

theorem traceroute_exit_codes_witness :
    ((1 : Int) ≠ 0 ∧ (1 : Int) ≠ -9 ∧ (1 : Int) ≠ -15 ∧ ((0 : Int) = 0 ∨ (0 : Int) = -9 ∨ (0 : Int) = -15)) ∧
    (trace_finish ["traceroute", "-n", "8.8.8.8"] 0 "" [some "a"] = Except.ok [some "a"]) ∧
    (trace_finish ["traceroute", "-n", "8.8.8.8"] 1 "boom" [] =
        Except.error (tracerouteErrorMsg ["traceroute", "-n", "8.8.8.8"] 1 "boom") ∧
      (∃ a b, tracerouteErrorMsg ["traceroute", "-n", "8.8.8.8"] 1 "boom" =
        a ++ (String.intercalate " " ["traceroute", "-n", "8.8.8.8"] ++ b)) ∧
      (∃ c, tracerouteErrorMsg ["traceroute", "-n", "8.8.8.8"] 1 "boom" = c ++ "boom")) :=
  ⟨⟨by decide, by decide, by decide, Or.inl rfl⟩,
    (traceroute_exit_codes ["traceroute", "-n", "8.8.8.8"] 0 "" [some "a"]).1 (Or.inl rfl),
    (traceroute_exit_codes ["traceroute", "-n", "8.8.8.8"] 1 "boom" []).2
      (by decide) (by decide) (by decide)⟩

/-- C6 counterexample: for the integer ASN 5 and a VRPs list whose
string-converted pairs contain exactly `(str(asn), str(prefix))`, the
claimed membership holds and neither argument is falsy or `'*'`, yet
`roa_valid` returns `false` (the membership test compares the arguments
without converting them, and an `int` never equals a `str`). -/
theorem roa_valid_counterexample :
    roa_valid [(PyStrInt.int 5, PyStrInt.str "192.0.2.0/24")]
        (PyStrInt.int 5) (PyStrInt.str "192.0.2.0/24") = false ∧
    (pyStr (PyStrInt.int 5), pyStr (PyStrInt.str "192.0.2.0/24")) ∈
      ([(PyStrInt.int 5, PyStrInt.str "192.0.2.0/24")].map
        (fun roa => (pyStr roa.1, pyStr roa.2))) ∧
    pyTruthy (PyStrInt.int 5) = true ∧ PyStrInt.int 5 ≠ PyStrInt.str "*" ∧
    pyTruthy (PyStrInt.str "192.0.2.0/24") = true ∧
    PyStrInt.str "192.0.2.0/24" ≠ PyStrInt.str "*" := by
  decide

/-- C6 amended: `roa_valid` is false when either argument is Python-falsy
(empty string or integer 0) or equals `'*'`; otherwise it is true iff the
unconverted argument pair matches a string-converted entry of the loaded
VRPs list — which for string arguments is exactly membership of
`(asn, prefix)` in that list, while an integer asn never matches. -/
theorem roa_valid_amended (roas : List (PyStrInt × PyStrInt)) (asn pfx : PyStrInt) :
    (roa_valid roas asn pfx = true ↔
      (pyTruthy asn = true ∧ asn ≠ PyStrInt.str "*" ∧ pyTruthy pfx = true ∧
        pfx ≠ PyStrInt.str "*" ∧
        ∃ roa ∈ roas, pyEqStr asn (pyStr roa.1) = true ∧
          pyEqStr pfx (pyStr roa.2) = true)) ∧
    (∀ s t : String, roa_valid roas (PyStrInt.str s) (PyStrInt.str t) = true ↔
      (s ≠ "" ∧ s ≠ "*" ∧ t ≠ "" ∧ t ≠ "*" ∧
        (s, t) ∈ roas.map (fun roa => (pyStr roa.1, pyStr roa.2)))) := by
  have hmain : ∀ a f : PyStrInt, roa_valid roas a f = true ↔
      (pyTruthy a = true ∧ a ≠ PyStrInt.str "*" ∧ pyTruthy f = true ∧
        f ≠ PyStrInt.str "*" ∧
        ∃ roa ∈ roas, pyEqStr a (pyStr roa.1) = true ∧
          pyEqStr f (pyStr roa.2) = true) := by
    intro a f
    rw [roa_valid]
    split_ifs with h1 h2
    · simp only [Bool.or_eq_true, Bool.not_eq_true', beq_iff_eq] at h1
      constructor
      · intro h; cases h
      · rintro ⟨ht, hs, -, -, -⟩
        rcases h1 with h1 | h1
        · rw [ht] at h1; cases h1
        · exact absurd h1 hs
    · simp only [Bool.or_eq_true, Bool.not_eq_true', beq_iff_eq] at h2
      constructor
      · intro h; cases h
      · rintro ⟨-, -, ht, hs, -⟩
        rcases h2 with h2 | h2
        · rw [ht] at h2; cases h2
        · exact absurd h2 hs
    · simp only [Bool.or_eq_true, Bool.not_eq_true', beq_iff_eq, not_or] at h1 h2
      show (List.map (fun roa => (pyStr roa.1, pyStr roa.2)) roas).any
          (fun vp => pyEqStr a vp.1 && pyEqStr f vp.2) = true ↔ _
      simp only [List.any_eq_true, List.mem_map, Bool.and_eq_true]
      constructor
      · rintro ⟨vp, ⟨roa, hmem, hvp⟩, hp⟩
        subst hvp
        exact ⟨by simpa using h1.1, h1.2, by simpa using h2.1, h2.2, roa, hmem, hp⟩
      · rintro ⟨-, -, -, -, roa, hmem, hp⟩
        exact ⟨(pyStr roa.1, pyStr roa.2), ⟨roa, hmem, rfl⟩, hp⟩
  refine ⟨hmain asn pfx, fun s t => ?_⟩
  rw [hmain (PyStrInt.str s) (PyStrInt.str t)]
  simp only [pyTruthy, pyEqStr, List.mem_map, decide_eq_true_eq, ne_eq,
    PyStrInt.str.injEq, beq_iff_eq]
  constructor
  · rintro ⟨hs, hstar, ht, htstar, roa, hmem, h1, h2⟩
    exact ⟨hs, hstar, ht, htstar, roa, hmem, by rw [h1, h2]⟩
  · rintro ⟨hs, hstar, ht, htstar, roa, hmem, heq⟩
    have h1 : pyStr roa.1 = s := (Prod.mk.injEq _ _ _ _ ▸ heq).1
    have h2 : pyStr roa.2 = t := (Prod.mk.injEq _ _ _ _ ▸ heq).2
    exact ⟨hs, hstar, ht, htstar, roa, hmem, h1.symm, h2.symm⟩

/-- C8 counterexample: for a destination whose capability set is
`{icmp, udp, tcp}` (Linux, root), the queue built on the first
selection holds every capability twice, not once — the initial fill
appends the whole capability list after the preferred prefix instead of
only the remaining capabilities. -/
theorem cycle_protocol_counterexample :
    cap_by_pref preferredProtocols ["icmp", "udp", "tcp"] =
      ["icmp", "udp", "tcp", "icmp", "udp", "tcp"] ∧
    ¬ (cap_by_pref preferredProtocols ["icmp", "udp", "tcp"]).count "icmp" = 1 ∧
    cycle_protocol none preferredProtocols ["icmp", "udp", "tcp"] =
      some ("icmp", ["udp", "tcp", "icmp", "udp", "tcp", "icmp"]) := by
  decide

/-- C8 amended: the first selection initialises the queue to the
preferred protocols present in the capability set followed by the whole
capability enumeration — so a preferred capability appears twice and any
other capability once — and every selection returns the head of the
queue and rotates it to the back. -/
theorem cycle_protocol_amended (pref caps : List String) (hp : pref.Nodup)
    (hc : caps.Nodup) (p x : String) (rest : List String) :
    ((cap_by_pref pref caps).count p =
      if p ∈ pref ∧ p ∈ caps then 2 else if p ∈ caps then 1 else 0) ∧
    cycle_protocol none pref caps =
      cycle_protocol (some (cap_by_pref pref caps)) pref caps ∧
    cycle_protocol (some (x :: rest)) pref caps = some (x, rest ++ [x]) := by
  refine ⟨?_, rfl, rfl⟩
  have hf : (pref.filter (fun proto => caps.contains proto)).count p =
      if p ∈ pref ∧ p ∈ caps then 1 else 0 := by
    by_cases hmem : p ∈ pref ∧ p ∈ caps
    · rw [if_pos hmem]
      exact List.count_eq_one_of_mem (hp.filter _)
        (List.mem_filter.mpr ⟨hmem.1, by simpa [List.elem_iff] using hmem.2⟩)
    · rw [if_neg hmem]
      apply List.count_eq_zero_of_not_mem
      intro hin
      have := List.mem_filter.mp hin
      exact hmem ⟨this.1, by simpa [List.elem_iff] using this.2⟩
  have hcc : caps.count p = if p ∈ caps then 1 else 0 := by
    by_cases hmem : p ∈ caps
    · rw [if_pos hmem]; exact List.count_eq_one_of_mem hc hmem
    · rw [if_neg hmem]; exact List.count_eq_zero_of_not_mem hmem
  rw [cap_by_pref, List.count_append, hf, hcc]
  split_ifs <;> first | rfl | omega | tauto

theorem cycle_protocol_amended_witness :
    (preferredProtocols.Nodup ∧ (["udp"] : List String).Nodup) ∧
    (((cap_by_pref preferredProtocols ["udp"]).count "udp" =
      if "udp" ∈ preferredProtocols ∧ "udp" ∈ (["udp"] : List String) then 2
      else if "udp" ∈ (["udp"] : List String) then 1 else 0) ∧
      cycle_protocol none preferredProtocols ["udp"] =
        cycle_protocol (some (cap_by_pref preferredProtocols ["udp"]))
          preferredProtocols ["udp"] ∧
      cycle_protocol (some ("icmp" :: ["udp"])) preferredProtocols ["udp"] =
        some ("icmp", ["udp"] ++ ["icmp"])) :=
  ⟨⟨by decide, by decide⟩,
    cycle_protocol_amended preferredProtocols ["udp"] (by decide) (by decide)
      "udp" "icmp" ["udp"]⟩

/-- C5: the supervisor's update branch for a destination that is already
running assigns the snapshot ports to the loop variable `tracer`, which
aliases the tracer created last in this tick, not the running tracer for
that destination.  At the failing input below the running tracer for
`8.8.8.8` keeps its stale ports `{1}` instead of receiving `{2}`, and
the freshly created tracer for `10.0.0.5` has its ports overwritten from
`{5}` to `{2}`. -/
theorem main_loop_dports_bug :
    mainLoopAddPhase "192.0.2.1" (fun _ => []) [("10.0.0.5", 5), ("8.8.8.8", 2)]
        [⟨"8.8.8.8", some 1, []⟩] =
      [⟨"8.8.8.8", some 1, []⟩, ⟨"10.0.0.5", some 2, []⟩] ∧
    mainLoopAddPhase "192.0.2.1" (fun _ => []) [("8.8.8.8", 2)]
        [⟨"8.8.8.8", some 1, []⟩] =
      [⟨"8.8.8.8", some 1, []⟩] := by
  decide

/-- On a filtered input the loop body leaves its state unchanged and
emits nothing. -/
theorem loopStep_filtered {δ : Type} [DecidableEq δ] (oc : Bool) (mt : Nat)
    (dest : String) (s : LoopState δ) (inp : LoopInput δ)
    (h : traceFiltered mt inp.tr = true) :
    loopStep oc mt dest s inp = (s, none) := by
  simp [loopStep, h]

/-- On an unfiltered (accepted) input the loop body merges, computes the
change flag, updates its locals and possibly emits a trace record. -/
theorem loopStep_unfiltered {δ : Type} [DecidableEq δ] (oc : Bool) (mt : Nat)
    (dest : String) (s : LoopState δ) (inp : LoopInput δ)
    (h : ¬ traceFiltered mt inp.tr = true) :
    loopStep oc mt dest s inp =
      (⟨if changeStep s (mergeStep s inp.tr) inp.dports then some (mergeStep s inp.tr)
          else s.last, inp.dports⟩,
        if !oc || changeStep s (mergeStep s inp.tr) inp.dports then
          some ⟨inp.start, dest, changeStep s (mergeStep s inp.tr) inp.dports,
            inp.endT - inp.start, mergeStep s inp.tr, TbField.pyNone,
            dportsField inp.dports, CnameField.num 2⟩
        else none) := by
  simp [loopStep, h]

/-- Every trace emitted by the periodic loop body carries the literal
`2` in its `cnames` slot, whatever the state. -/
theorem runLoopAux_cnames {δ : Type} [DecidableEq δ] (oc : Bool) (mt : Nat)
    (dest : String) :
    ∀ (inps : List (LoopInput δ)) (s : LoopState δ) (t : Trace δ),
      t ∈ runLoopAux oc mt dest s inps → t.cnames = CnameField.num 2 := by
  intro inps
  induction inps with
  | nil => intro s t h; simp [runLoopAux] at h
  | cons inp rest ih =>
      intro s t h
      rw [runLoopAux] at h
      rcases List.mem_append.mp h with h1 | h2
      · by_cases hf : traceFiltered mt inp.tr = true
        · rw [loopStep_filtered oc mt dest s inp hf] at h1
          simp at h1
        · rw [loopStep_unfiltered oc mt dest s inp hf] at h1
          rw [Option.mem_toList, Option.mem_def] at h1
          have hmem2 : (if (!oc || changeStep s (mergeStep s inp.tr) inp.dports) = true then
              some (⟨inp.start, dest, changeStep s (mergeStep s inp.tr) inp.dports,
                inp.endT - inp.start, mergeStep s inp.tr, TbField.pyNone,
                dportsField inp.dports, CnameField.num 2⟩ : Trace δ)
            else none) = some t := h1
          split at hmem2
          · injection hmem2 with h'
            rw [← h']
          · cases hmem2
      · exact ih _ t h2

/-- C3: every trace record the periodic loop appends to the history has
the literal integer `2` in its `cnames` slot (tracer.py line 135); only
the final sentinel trace carries the tracer's `cnames` chain (line 142).
The data model's `cnames = CNAME chain for destination` therefore fails
for every loop-emitted trace. -/
theorem tracer_cnames_literal (δ : Type) [DecidableEq δ] (oc : Bool) (mt : Nat)
    (dest : String) (inps : List (LoopInput δ)) (now : Nat) (cn : List String) :
    (∀ t ∈ loopHistory oc mt dest inps, t.cnames = CnameField.num 2) ∧
    (sentinelTrace δ now dest cn).cnames = CnameField.chain cn :=
  ⟨fun t ht => runLoopAux_cnames oc mt dest inps ⟨none, none⟩ t ht, rfl⟩

theorem tracer_cnames_literal_witness :
    ((⟨0, "d", true, 1, [some "203.0.113.1"], TbField.pyNone, DportsField.pyNone,
        CnameField.num 2⟩ : Trace Nat) ∈ loopHistory true 64 "d" c1Inputs) ∧
    (⟨0, "d", true, 1, [some "203.0.113.1"], TbField.pyNone, DportsField.pyNone,
        CnameField.num 2⟩ : Trace Nat).cnames = CnameField.num 2 ∧
    (sentinelTrace Nat 7 "d" ["a.example"]).cnames = CnameField.chain ["a.example"] :=
  ⟨by decide,
    (tracer_cnames_literal Nat true 64 "d" c1Inputs 7 ["a.example"]).1 _ (by decide),
    (tracer_cnames_literal Nat true 64 "d" c1Inputs 7 ["a.example"]).2⟩

/-- C7 counterexample: a cached hop whose expiry time equals the current
time is not removed by the expire phase (which only removes strictly
smaller expiry times) and is returned as a hit, so its expiry time is
not strictly greater than the current time. -/
theorem hop_cache_expiry_counterexample :
    (hopInfoLookup (⟨[("203.0.113.7", 0)], [(5, ["203.0.113.7"])]⟩ : HopCacheState Nat)
        5 "203.0.113.7").1 = some 0 ∧
    (hopInfoLookup (⟨[("203.0.113.7", 0)], [(5, ["203.0.113.7"])]⟩ : HopCacheState Nat)
        5 "203.0.113.7").2.expire = [(5, ["203.0.113.7"])] ∧
    (∀ b ∈ (hopInfoLookup (⟨[("203.0.113.7", 0)], [(5, ["203.0.113.7"])]⟩ : HopCacheState Nat)
        5 "203.0.113.7").2.expire, ¬ 5 < b.1) := by
  decide

/-- C7 amended: the expire phase that precedes every cache read removes
every entry whose expiry time is strictly less than now, so every
surviving expiry bucket has time ≥ now and — provided every cached IP is
covered by some expiry bucket — every IP returned as a cache hit has an
expiry time ≥ now (equality is possible, so "strictly greater" fails). -/
theorem hop_cache_expiry_amended {ρ : Type} (s : HopCacheState ρ) (now : Nat)
    (ip : String) (r : ρ)
    (hcov : ∀ e ∈ s.cache, ∃ b ∈ s.expire, e.1 ∈ b.2)
    (hhit : (hopInfoLookup s now ip).1 = some r) :
    (∀ b ∈ (hopInfoLookup s now ip).2.expire, now ≤ b.1) ∧
    (∃ b ∈ (hopInfoLookup s now ip).2.expire, ip ∈ b.2 ∧ now ≤ b.1) := by
  constructor
  · intro b hb
    have hb' : b ∈ s.expire.filter (fun b => !(b.1 < now)) := hb
    have := (List.mem_filter.mp hb').2
    simp only [Bool.not_eq_true', decide_eq_false_iff_not] at this
    omega
  · have hh : ((hopInfoExpire s now).cache.find? (fun e => e.1 == ip)).map
        (fun e => e.2) = some r := hhit
    rcases Option.map_eq_some'.mp hh with ⟨e, hfind, -⟩
    have hip : e.1 = ip := by simpa using List.find?_some hfind
    have hmem' : e ∈ s.cache.filter (fun e2 =>
        !(((s.expire.filter (fun b => b.1 < now)).flatMap (fun b => b.2)).contains e2.1)) :=
      List.mem_of_find?_eq_some hfind
    have h2 := List.mem_filter.mp hmem'
    rcases hcov e h2.1 with ⟨b, hbmem, hbip⟩
    have hble : ¬ b.1 < now := by
      intro hlt
      have hin : e.1 ∈ (s.expire.filter (fun b => b.1 < now)).flatMap (fun b => b.2) :=
        List.mem_flatMap.mpr ⟨b, List.mem_filter.mpr ⟨hbmem, by simpa using hlt⟩, hbip⟩
      have hcon := h2.2
      rw [Bool.not_eq_true'] at hcon
      exact absurd hin (by simpa [List.elem_iff] using hcon)
    refine ⟨b, ?_, ?_, by omega⟩
    · show b ∈ s.expire.filter (fun b => !(b.1 < now))
      exact List.mem_filter.mpr ⟨hbmem, by simpa using hble⟩
    · rw [← hip]; exact hbip

theorem hop_cache_expiry_amended_witness :
    (∀ e ∈ (⟨[("198.51.100.2", 1)], [(9, ["198.51.100.2"])]⟩ : HopCacheState Nat).cache,
      ∃ b ∈ (⟨[("198.51.100.2", 1)], [(9, ["198.51.100.2"])]⟩ : HopCacheState Nat).expire,
        e.1 ∈ b.2) ∧
    (hopInfoLookup (⟨[("198.51.100.2", 1)], [(9, ["198.51.100.2"])]⟩ : HopCacheState Nat)
        5 "198.51.100.2").1 = some 1 ∧
    ((∀ b ∈ (hopInfoLookup (⟨[("198.51.100.2", 1)], [(9, ["198.51.100.2"])]⟩ : HopCacheState Nat)
        5 "198.51.100.2").2.expire, 5 ≤ b.1) ∧
      (∃ b ∈ (hopInfoLookup (⟨[("198.51.100.2", 1)], [(9, ["198.51.100.2"])]⟩ : HopCacheState Nat)
        5 "198.51.100.2").2.expire, "198.51.100.2" ∈ b.2 ∧ 5 ≤ b.1)) :=
  ⟨by decide, by decide,
    hop_cache_expiry_amended (⟨[("198.51.100.2", 1)], [(9, ["198.51.100.2"])]⟩ : HopCacheState Nat)
      5 "198.51.100.2" 1 (by decide) (by decide)⟩

/-- When the recorded IP is absent and the store is at or above capacity,
`record` drops the LAST (most recently inserted) entry and appends the
new one. -/
theorem record_evict {κ ν : Type} [DecidableEq κ] (s : List (κ × ν)) (mx : Nat)
    (ip : κ) (v : ν) (habs : s.any (fun e => e.1 = ip) = false)
    (hfull : mx ≤ s.length) :
    record s mx ip v = s.dropLast ++ [(ip, v)] := by
  simp only [record, habs, Bool.false_eq_true, if_false]
  rw [if_pos hfull]

/-- C4 counterexample: with the store at its 5,000-entry capacity,
recording a chain for a fresh IP keeps the oldest (least recently used)
entry, key `0`, and evicts the newest entry, key `4999` — `popitem()`
pops the MRU end, not the LRU end. -/
theorem reverse_store_counterexample :
    lruStoreFull.length = MAX_ITEMS ∧
    lruStoreFull.head? = some (0, 0) ∧
    lruStoreFull.getLast? = some (4999, 0) ∧
    (record lruStoreFull MAX_ITEMS 5000 7).any (fun e => e.1 = 0) = true ∧
    (record lruStoreFull MAX_ITEMS 5000 7).any (fun e => e.1 = 4999) = false := by
  have habs : lruStoreFull.any (fun e => e.1 = 5000) = false := by
    rw [Bool.eq_false_iff]
    intro hany
    rcases List.any_eq_true.mp hany with ⟨e, hmem, he⟩
    rw [decide_eq_true_eq] at he
    rcases List.mem_cons.mp hmem with h0 | hmem1
    · rw [h0] at he; exact absurd he (by decide)
    · rcases List.mem_append.mp hmem1 with hmid | hlastm
      · rcases List.mem_map.mp hmid with ⟨i, hi, hie⟩
        have : i + 1 = 5000 := by rw [← hie] at he; exact he
        have : i < 4998 := List.mem_range.mp hi
        omega
      · rcases List.mem_singleton.mp hlastm with h1
        rw [h1] at he; exact absurd he (by decide)
  have hlen : lruStoreFull.length = 5000 := by
    simp [lruStoreFull]
  have hev := record_evict lruStoreFull MAX_ITEMS 5000 7 habs
    (by rw [hlen]; rfl)
  have hdrop : lruStoreFull.dropLast =
      (0, 0) :: (List.range 4998).map (fun i => (i + 1, 0)) := by
    rw [lruStoreFull]
    rw [show ((0, 0) :: ((List.range 4998).map (fun i => (i + 1, 0)) ++ [(4999, 0)])) =
      ((0, 0) :: (List.range 4998).map (fun i => (i + 1, 0))) ++ [(4999, 0)] from rfl]
    exact List.dropLast_concat
  refine ⟨by rw [hlen]; rfl, rfl, ?_, ?_, ?_⟩
  · rw [lruStoreFull]
    rw [show ((0, 0) :: ((List.range 4998).map (fun i => (i + 1, 0)) ++ [(4999, 0)])) =
      ((0, 0) :: (List.range 4998).map (fun i => (i + 1, 0))) ++ [(4999, 0)] from rfl]
    exact List.getLast?_concat _
  · rw [hev, hdrop]
    rfl
  · rw [hev, hdrop, Bool.eq_false_iff]
    intro hany
    rcases List.any_eq_true.mp hany with ⟨e, hmem, he⟩
    rw [decide_eq_true_eq] at he
    rcases List.mem_append.mp hmem with hl | hr
    · rcases List.mem_cons.mp hl with h0 | hmid
      · rw [h0] at he; exact absurd he (by decide)
      · rcases List.mem_map.mp hmid with ⟨i, hi, hie⟩
        have h5 : i + 1 = 4999 := by rw [← hie] at he; exact he
        have : i < 4998 := List.mem_range.mp hi
        omega
    · rcases List.mem_singleton.mp hr with h1
      rw [h1] at he; exact absurd he (by decide)

/-- C4 amended: the store never exceeds 5,000 entries and re-recording an
IP moves it to the most-recently-used end, but when a new IP is recorded
at capacity the evicted entry is the MOST recently used (last) one, not
the least recently used. -/
theorem reverse_store_amended {κ ν : Type} [DecidableEq κ] (s : List (κ × ν))
    (ip : κ) (v : ν) (hlen : s.length ≤ MAX_ITEMS) :
    (record s MAX_ITEMS ip v).length ≤ MAX_ITEMS ∧
    (record s MAX_ITEMS ip v).getLast? = some (ip, v) ∧
    (s.any (fun e => e.1 = ip) = false → s.length = MAX_ITEMS →
      record s MAX_ITEMS ip v = s.dropLast ++ [(ip, v)]) := by
  have hM : MAX_ITEMS = 5000 := rfl
  rw [hM] at hlen ⊢
  refine ⟨?_, by simp only [record]; exact List.getLast?_concat _,
    fun habs hfull => record_evict s 5000 ip v habs (le_of_eq hfull.symm)⟩
  by_cases hp : s.any (fun e => e.1 = ip) = true
  · rcases List.any_eq_true.mp hp with ⟨e, hmem, he⟩
    have hpos : 0 < s.length := List.length_pos.mpr (List.ne_nil_of_mem hmem)
    have herase : (s.eraseP (fun e => e.1 == ip)).length = s.length - 1 :=
      List.length_eraseP_of_mem hmem (by simpa using he)
    simp only [record, if_pos hp]
    rw [if_neg (show ¬(5000 ≤ (s.eraseP (fun e => e.1 == ip)).length) by omega)]
    rw [List.length_append, herase]
    simp only [List.length_singleton]
    omega
  · have habs : s.any (fun e => e.1 = ip) = false := Bool.eq_false_iff.mpr hp
    by_cases hfull : (5000 : Nat) ≤ s.length
    · rw [record_evict s 5000 ip v habs hfull]
      rw [List.length_append, List.length_dropLast]
      simp only [List.length_singleton]
      omega
    · simp only [record, habs, Bool.false_eq_true, if_false]
      rw [if_neg hfull]
      rw [List.length_append]
      simp only [List.length_singleton]
      omega

theorem reverse_store_amended_witness :
    ([((7 : Nat), (0 : Nat))].length ≤ MAX_ITEMS) ∧
    ((record [((7 : Nat), (0 : Nat))] MAX_ITEMS 7 1).length ≤ MAX_ITEMS ∧
      (record [((7 : Nat), (0 : Nat))] MAX_ITEMS 7 1).getLast? = some (7, 1) ∧
      (([((7 : Nat), (0 : Nat))] : List (Nat × Nat)).any (fun e => e.1 = 7) = false →
        ([((7 : Nat), (0 : Nat))] : List (Nat × Nat)).length = MAX_ITEMS →
        record [((7 : Nat), (0 : Nat))] MAX_ITEMS 7 1 =
          ([((7 : Nat), (0 : Nat))] : List (Nat × Nat)).dropLast ++ [(7, 1)])) :=
  ⟨by decide, reverse_store_amended [((7 : Nat), (0 : Nat))] 7 1 (by decide)⟩

/-- One `send_traces` operation preserves the publication-map invariants:
every stored key lies under its own destination, and destinations are
unique. -/
theorem pubApply_inv (m : PubMap) (op : PubOp)
    (hwf : ∀ e ∈ m, ∀ k ∈ e.2, k.2 = e.1)
    (hnd : (m.map (fun e => e.1)).Nodup) :
    (∀ e ∈ pubApply m op, ∀ k ∈ e.2, k.2 = e.1) ∧
    ((pubApply m op).map (fun e => e.1)).Nodup := by
  cases op with
  | pub s d =>
      rw [pubApply]
      split
      · exact ⟨hwf, hnd⟩
      · rw [pubAddKey]
        by_cases hany : m.any (fun e => e.1 = d) = true

        · rw [if_pos hany]
          constructor
          · intro e he k hk
            rcases List.mem_map.mp he with ⟨e0, he0, heq⟩
            by_cases hd : e0.1 = d
            · rw [if_pos hd] at heq
              rw [← heq] at hk ⊢
              rcases List.mem_append.mp hk with h1 | h2
              · exact hwf e0 he0 k h1
              · rw [List.mem_singleton.mp h2, ← hd]
            · rw [if_neg hd] at heq
              rw [← heq] at hk ⊢
              exact hwf e0 he0 k hk
          · have hkeys : (List.map (fun e => if e.1 = d then (e.1, e.2 ++ [(s, d)]) else e) m).map
                (fun e => e.1) = m.map (fun e => e.1) := by
              rw [List.map_map]
              apply List.map_congr_left
              intro e he
              by_cases hd : e.1 = d
              · simp [hd]
              · simp [hd]
            rw [hkeys]
            exact hnd
        · rw [if_neg hany]
          constructor
          · intro e he k hk
            rcases List.mem_append.mp he with h1 | h2
            · exact hwf e h1 k hk
            · rw [List.mem_singleton.mp h2] at hk ⊢
              rw [List.mem_singleton.mp hk]
          · rw [List.map_append]
            apply List.Nodup.append hnd (by simp)
            intro a ha hb
            rcases List.mem_map.mp ha with ⟨e, he, heq⟩
            have had : a = d := by simpa using hb
            apply hany
            exact List.any_eq_true.mpr ⟨e, he, by simp [heq, had]⟩
  | remove d =>
      rw [pubApply]
      split
      · constructor
        · intro e he k hk
          exact hwf e (List.mem_of_mem_filter he) k hk
        · exact ((List.filter_sublist m).map (fun e => e.1)).nodup hnd
      · exact ⟨hwf, hnd⟩

/-- The invariants hold for every publication map reachable from the
empty map of a fresh connection. -/
theorem pubRun_inv (ops : List PubOp) :
    (∀ e ∈ pubRun ops, ∀ k ∈ e.2, k.2 = e.1) ∧
    ((pubRun ops).map (fun e => e.1)).Nodup := by
  have main : ∀ (l : List PubOp) (m : PubMap),
      (∀ e ∈ m, ∀ k ∈ e.2, k.2 = e.1) → ((m.map (fun e => e.1)).Nodup) →
      (∀ e ∈ l.foldl pubApply m, ∀ k ∈ e.2, k.2 = e.1) ∧
      ((l.foldl pubApply m).map (fun e => e.1)).Nodup := by
    intro l
    induction l with
    | nil => intro m hwf hnd; exact ⟨hwf, hnd⟩
    | cons op rest ih =>
        intro m hwf hnd
        rw [List.foldl_cons]
        have h := pubApply_inv m op hwf hnd
        exact ih (pubApply m op) h.1 h.2
  exact main ops [] (by simp) (by simp)

/-- Membership in the list stored under destination `d` matches, for
maps with unique destinations, the existence of the entry of `d`
holding the key. -/
theorem mem_tracesOfDest (m : PubMap) (hnd : (m.map (fun e => e.1)).Nodup)
    (s : Nat) (d : String) :
    (s, d) ∈ tracesOfDest m d ↔ ∃ e ∈ m, e.1 = d ∧ (s, d) ∈ e.2 := by
  induction m with
  | nil => simp [tracesOfDest]
  | cons a m ih =>
      by_cases ha : a.1 = d
      · have : tracesOfDest (a :: m) d = a.2 := by
          rw [tracesOfDest, List.find?_cons_of_pos _ (by simpa using ha)]
          rfl
        rw [this]
        constructor
        · intro h
          exact ⟨a, List.mem_cons_self a m, ha, h⟩
        · rintro ⟨e, he, hed, hk⟩
          rcases List.mem_cons.mp he with rfl | hem
          · exact hk
          · exfalso
            rw [List.map_cons, List.nodup_cons] at hnd
            exact hnd.1 (ha ▸ hed ▸ List.mem_map.mpr ⟨e, hem, rfl⟩)
      · have : tracesOfDest (a :: m) d = tracesOfDest m d := by
          rw [tracesOfDest, List.find?_cons_of_neg _ (by simpa using ha)]
          rfl
        rw [this]
        rw [List.map_cons, List.nodup_cons] at hnd
        rw [ih hnd.2]
        constructor
        · rintro ⟨e, he, hed, hk⟩
          exact ⟨e, List.mem_cons_of_mem a he, hed, hk⟩
        · rintro ⟨e, he, hed, hk⟩
          rcases List.mem_cons.mp he with rfl | hem
          · exact absurd hed ha
          · exact ⟨e, hem, hed, hk⟩

/-- C10: in every reachable per-connection publication map, a dedupe key
stored under destination `d` has destination component `d`; membership
in the union of all lists coincides with membership in the list of the
key's own destination; and deleting a destination removes exactly the
keys whose destination component equals it. -/
theorem pubmap_invariant (ops : List PubOp) (s : Nat) (d : String) (k : Nat × String) :
    (∀ e ∈ pubRun ops, ∀ key ∈ e.2, key.2 = e.1) ∧
    ((s, d) ∈ allProcessedTraces (pubRun ops) ↔ (s, d) ∈ tracesOfDest (pubRun ops) d) ∧
    (k ∈ allProcessedTraces (pubDelDest (pubRun ops) d) ↔
      k ∈ allProcessedTraces (pubRun ops) ∧ k.2 ≠ d) := by
  rcases pubRun_inv ops with ⟨hwf, hnd⟩
  refine ⟨hwf, ?_, ?_⟩
  · rw [mem_tracesOfDest (pubRun ops) hnd s d, allProcessedTraces, List.mem_flatMap]
    constructor
    · rintro ⟨e, he, hk⟩
      exact ⟨e, he, (hwf e he (s, d) hk).symm ▸ rfl, hk⟩
    · rintro ⟨e, he, -, hk⟩
      exact ⟨e, he, hk⟩
  · rw [allProcessedTraces, allProcessedTraces, List.mem_flatMap, List.mem_flatMap]
    constructor
    · rintro ⟨e, he, hk⟩
      have hmf := List.mem_filter.mp he
      have hed := hwf e hmf.1 k hk
      refine ⟨⟨e, hmf.1, hk⟩, ?_⟩
      rw [hed]
      simpa using hmf.2
    · rintro ⟨⟨e, he, hk⟩, hkd⟩
      refine ⟨e, List.mem_filter.mpr ⟨he, ?_⟩, hk⟩
      have := hwf e he k hk
      simpa using (this ▸ hkd)

theorem pubmap_invariant_witness :
    (∀ e ∈ pubRun [PubOp.pub 1 "198.51.100.9"], ∀ key ∈ e.2, key.2 = e.1) ∧
    (((1 : Nat), "198.51.100.9") ∈ allProcessedTraces (pubRun [PubOp.pub 1 "198.51.100.9"]) ↔
      ((1 : Nat), "198.51.100.9") ∈ tracesOfDest (pubRun [PubOp.pub 1 "198.51.100.9"]) "198.51.100.9") ∧
    (((1 : Nat), "198.51.100.9") ∈
        allProcessedTraces (pubDelDest (pubRun [PubOp.pub 1 "198.51.100.9"]) "198.51.100.9") ↔
      ((1 : Nat), "198.51.100.9") ∈ allProcessedTraces (pubRun [PubOp.pub 1 "198.51.100.9"]) ∧
        ((1 : Nat), "198.51.100.9").2 ≠ "198.51.100.9") :=
  pubmap_invariant [PubOp.pub 1 "198.51.100.9"] 1 "198.51.100.9" (1, "198.51.100.9")

/-- The `dports` slot conversion is injective. -/
theorem dportsField_inj {δ : Type} (a b : Option δ) :
    dportsField a = dportsField b ↔ a = b := by
  cases a <;> cases b <;> simp [dportsField]

/-- A false change flag forces both loop locals to be set and the merged
trace and current dports to equal them. -/
theorem changeStep_eq_false {δ : Type} [DecidableEq δ] (s : LoopState δ)
    (tr : List Hop) (dp : Option δ) (h : changeStep s tr dp = false) :
    ∃ l dl, s.last = some l ∧ s.dportsLast = some dl ∧ tr = l ∧ some dl = dp := by
  rcases s with ⟨slast, sdl⟩
  cases slast with
  | none => simp [changeStep] at h
  | some l =>
      cases sdl with
      | none => simp [changeStep] at h
      | some dl =>
          simp only [changeStep, Bool.not_eq_false', decide_eq_true_eq] at h
          exact ⟨l, dl, rfl, rfl, h.1, h.2⟩

/-- The loop body preserves the chain invariant: starting from locals
that agree with the last accepted trace, the emitted history is a valid
`linkOk` chain. -/
theorem chainFrom_runLoopAux {δ : Type} [DecidableEq δ] (oc : Bool) (mt : Nat)
    (dest : String) :
    ∀ (inps : List (LoopInput δ)) (s : LoopState δ) (p : Option (Trace δ)),
      stateMatches s p → chainFrom p (runLoopAux oc mt dest s inps) := by
  intro inps
  induction inps with
  | nil =>
      intro s p _
      rw [runLoopAux]
      cases p <;> trivial
  | cons inp rest ih =>
      intro s p hsm
      rw [runLoopAux]
      by_cases hf : traceFiltered mt inp.tr = true
      · rw [loopStep_filtered oc mt dest s inp hf]
        show chainFrom p ((none : Option (Trace δ)).toList ++ runLoopAux oc mt dest s rest)
        simpa using ih s p hsm
      · rw [loopStep_unfiltered oc mt dest s inp hf]
        by_cases hemit : (!oc || changeStep s (mergeStep s inp.tr) inp.dports) = true
        · rw [if_pos hemit]
          show chainFrom p
            ((⟨inp.start, dest, changeStep s (mergeStep s inp.tr) inp.dports,
              inp.endT - inp.start, mergeStep s inp.tr, TbField.pyNone,
              dportsField inp.dports, CnameField.num 2⟩ : Trace δ) ::
            runLoopAux oc mt dest
              ⟨if changeStep s (mergeStep s inp.tr) inp.dports then
                  some (mergeStep s inp.tr) else s.last, inp.dports⟩ rest)
          simp only [chainFrom]
          constructor
          · -- the link between the predecessor and the emitted trace
            cases p with
            | none =>
                simp only [stateMatches] at hsm
                rcases s with ⟨slast, sdl⟩
                simp only at hsm
                rw [hsm.1]
                simp only [linkOk]
                cases sdl <;> rfl
            | some pt =>
                simp only [stateMatches] at hsm
                rcases s with ⟨slast, sdl⟩
                simp only at hsm
                rw [hsm.1]
                simp only [linkOk]
                cases sdl with
                | none =>
                    have hpd : pt.dports = DportsField.pyNone := hsm.2
                    simp [changeStep, hpd]
                | some dl =>
                    have hpd : pt.dports = DportsField.ports dl := hsm.2
                    simp only [changeStep, hpd, Bool.not_eq_true', decide_eq_false_iff_not,
                      not_and, Bool.not_eq_false', decide_eq_true_eq]
                    cases hdp : inp.dports with
                    | none => simp [dportsField]
                    | some d2 =>
                        simp [dportsField]
                        constructor
                        · intro hcl
                          by_cases htr : mergeStep ⟨some pt.trace, some dl⟩ inp.tr = pt.trace
                          · right
                            intro hd2
                            rw [hd2] at hcl
                            exact (hcl htr) rfl
                          · left; exact htr
                        · intro hcl htr hdd
                          rcases hcl with hcl | hcl
                          · exact hcl htr
                          · exact hcl (by rw [hdd])
          · -- the recursive chain from the emitted trace
            apply ih
            simp only [stateMatches]
            by_cases hch : changeStep s (mergeStep s inp.tr) inp.dports = true
            · rw [if_pos hch]
              exact ⟨by trivial, by trivial⟩
            · rcases changeStep_eq_false s (mergeStep s inp.tr) inp.dports
                (Bool.not_eq_true _ ▸ hch) with ⟨l, dl, hl, -, htr, -⟩
              rw [if_neg hch, hl, htr]
              exact ⟨by trivial, by trivial⟩
        · rw [if_neg hemit]
          show chainFrom p ((none : Option (Trace δ)).toList ++ runLoopAux oc mt dest
            ⟨if changeStep s (mergeStep s inp.tr) inp.dports then
                some (mergeStep s inp.tr) else s.last, inp.dports⟩ rest)
          simp only [Option.toList_none, List.nil_append]
          have hch : changeStep s (mergeStep s inp.tr) inp.dports = false := by
            rcases Bool.or_eq_false_iff.mp (Bool.not_eq_true _ ▸ hemit) with ⟨-, h2⟩
            exact h2
          rcases changeStep_eq_false s (mergeStep s inp.tr) inp.dports hch
            with ⟨l, dl, hl, hdl, htr, hdp⟩
          cases p with
          | none =>
              simp only [stateMatches] at hsm
              rw [hsm.1] at hl
              cases hl
          | some pt =>
              apply ih
              simp only [stateMatches] at hsm ⊢
              constructor
              · rw [if_neg (by rw [hch]; exact Bool.false_ne_true), hsm.1]
              · rw [hsm.2, hdl, ← hdp]
  
/-- Consecutive entries of a `linkOk` chain are linked. -/
theorem chainFrom_get {δ : Type} :
    ∀ (l : List (Trace δ)) (p : Option (Trace δ)), chainFrom p l →
      ∀ i (t t' : Trace δ), l[i]? = some t → l[i + 1]? = some t' →
        linkOk (some t) t' := by
  intro l
  induction l with
  | nil => intro p _ i t t' h1 _; simp at h1
  | cons a l ih =>
      intro p hc i t t' h1 h2
      simp only [chainFrom] at hc
      cases i with
      | zero =>
          rw [List.getElem?_cons_zero] at h1
          injection h1 with h1
          subst h1
          rw [List.getElem?_cons_succ] at h2
          cases l with
          | nil => simp at h2
          | cons b l2 =>
              rw [List.getElem?_cons_zero] at h2
              injection h2 with h2
              subst h2
              simp only [chainFrom] at hc
              exact hc.2.1
      | succ i =>
          rw [List.getElem?_cons_succ] at h1 h2
          exact ih (some a) hc.2 i t t' h1 h2

/-- The head of a chain started from no predecessor has a true flag. -/
theorem chainFrom_head {δ : Type} (l : List (Trace δ)) (h : chainFrom none l) :
    ∀ t, l.head? = some t → t.change = true := by
  cases l with
  | nil => intro t ht; simp at ht
  | cons a l =>
      intro t ht
      rw [List.head?_cons] at ht
      injection ht with ht
      subst ht
      simp only [chainFrom] at h
      exact h.1

/-- C1 counterexample: a tracer whose `dports` stays unset (`None`)
accepts two identical traces; the second history entry has
`change = true` although neither its hops nor its dports differ from
the previous accepted trace — the claimed equivalence fails because the
loop forces `change = True` whenever `dports_last is None`. -/
theorem tracer_change_counterexample :
    ¬ (∀ i (t t' : Trace Nat), (loopHistory true 64 "d" c1Inputs)[i]? = some t →
        (loopHistory true 64 "d" c1Inputs)[i + 1]? = some t' →
        (t'.change = true ↔ (t'.trace ≠ t.trace ∨ t'.dports ≠ t.dports))) := by
  intro hcl
  have h := hcl 0
    ⟨0, "d", true, 1, [some "203.0.113.1"], TbField.pyNone, DportsField.pyNone,
      CnameField.num 2⟩
    ⟨5, "d", true, 1, [some "203.0.113.1"], TbField.pyNone, DportsField.pyNone,
      CnameField.num 2⟩
    (by decide) (by decide)
  have h2 := h.mp rfl
  rcases h2 with h2 | h2
  · exact h2 rfl
  · exact h2 rfl

/-- C1 amended: the first accepted trace of every tracer has
`change = true`, and each later accepted trace's flag is true iff its
hops differ from the previous accepted trace's hops, or its dports
differ from the previous accepted trace's dports, or the previous
accepted trace's dports slot is the unset Python `None` (in which case
the flag is true even when nothing differs). -/
theorem tracer_change_flag (δ : Type) [DecidableEq δ] (oc : Bool) (mt : Nat)
    (dest : String) (inps : List (LoopInput δ)) :
    (∀ t, (loopHistory oc mt dest inps).head? = some t → t.change = true) ∧
    (∀ i (t t' : Trace δ), (loopHistory oc mt dest inps)[i]? = some t →
      (loopHistory oc mt dest inps)[i + 1]? = some t' →
      (t'.change = true ↔ (t'.trace ≠ t.trace ∨ t'.dports ≠ t.dports ∨
        t.dports = DportsField.pyNone))) := by
  have hchain : chainFrom none (loopHistory oc mt dest inps) :=
    chainFrom_runLoopAux oc mt dest inps ⟨none, none⟩ none ⟨rfl, rfl⟩
  constructor
  · exact chainFrom_head _ hchain
  · intro i t t' h1 h2
    have hl := chainFrom_get (loopHistory oc mt dest inps) none hchain i t t' h1 h2
    simpa only [linkOk] using hl

theorem tracer_change_flag_witness :
    ((loopHistory true 64 "d" c1Inputs).head? =
      some ⟨0, "d", true, 1, [some "203.0.113.1"], TbField.pyNone,
        DportsField.pyNone, CnameField.num 2⟩ ∧
     (loopHistory true 64 "d" c1Inputs)[0]? =
      some ⟨0, "d", true, 1, [some "203.0.113.1"], TbField.pyNone,
        DportsField.pyNone, CnameField.num 2⟩ ∧
     (loopHistory true 64 "d" c1Inputs)[0 + 1]? =
      some ⟨5, "d", true, 1, [some "203.0.113.1"], TbField.pyNone,
        DportsField.pyNone, CnameField.num 2⟩) ∧
    ((⟨0, "d", true, 1, [some "203.0.113.1"], TbField.pyNone, DportsField.pyNone,
        CnameField.num 2⟩ : Trace Nat).change = true) ∧
    ((⟨5, "d", true, 1, [some "203.0.113.1"], TbField.pyNone, DportsField.pyNone,
        CnameField.num 2⟩ : Trace Nat).change = true ↔
      ((⟨5, "d", true, 1, [some "203.0.113.1"], TbField.pyNone, DportsField.pyNone,
          CnameField.num 2⟩ : Trace Nat).trace ≠
        (⟨0, "d", true, 1, [some "203.0.113.1"], TbField.pyNone, DportsField.pyNone,
          CnameField.num 2⟩ : Trace Nat).trace ∨
       (⟨5, "d", true, 1, [some "203.0.113.1"], TbField.pyNone, DportsField.pyNone,
          CnameField.num 2⟩ : Trace Nat).dports ≠
        (⟨0, "d", true, 1, [some "203.0.113.1"], TbField.pyNone, DportsField.pyNone,
          CnameField.num 2⟩ : Trace Nat).dports ∨
       (⟨0, "d", true, 1, [some "203.0.113.1"], TbField.pyNone, DportsField.pyNone,
          CnameField.num 2⟩ : Trace Nat).dports = DportsField.pyNone)) :=
  ⟨⟨by decide, by decide, by decide⟩,
    (tracer_change_flag Nat true 64 "d" c1Inputs).1 _ (by decide),
    (tracer_change_flag Nat true 64 "d" c1Inputs).2 0 _ _ (by decide) (by decide)⟩
